import Mathlib

/-!
Shallow embedding of the ns-3 WiMAX subscriber-station uplink scheduler
(`src/wimax/model/ss-scheduler.cc`): the grant-packing loop of
`SSScheduler::Schedule` and the priority ladder of
`SSScheduler::SelectConnection`.  The MAC queue, the PHY symbol/byte
conversion and the station registries are collaborators that live outside
the scheduler source file; they are modelled from the specification's
interface contracts and marked as such below.
-/

/-- MacHeaderType::HeaderType: generic MAC header or bandwidth request. -/
inductive HeaderType
  | GENERIC
  | BANDWIDTH
deriving DecidableEq

/-- Cid::Type: the connection classes of the scheduler. -/
inductive CidType
  | INITIAL_RANGING
  | BASIC
  | PRIMARY
  | BROADCAST
  | TRANSPORT
deriving DecidableEq

/-- Modelled from the spec: one queued MAC SDU of the per-connection FIFO
(the queue type `WimaxMacQueue` is outside the scheduler source).
`payload` is the SDU payload still to be sent, `hdrSize` the MAC header
size in bytes, `fragmenting` records whether a fragmentation chain is in
progress for this packet. -/
structure QPacket where
  payload : Nat
  hdrSize : Nat
  hdrType : HeaderType
  fragmenting : Bool
deriving DecidableEq

/-- Whole-packet cost of a queued packet: MAC header, the pending fragment
sub-header when a chain is in progress, and the remaining payload. -/
def requiredBytes (p : QPacket) : Nat :=
  p.hdrSize + (if p.fragmenting then 2 else 0) + p.payload

/-- Header bytes of a queued packet, including a pending fragment
sub-header when a chain is in progress. -/
def hdrBytes (p : QPacket) : Nat :=
  p.hdrSize + (if p.fragmenting then 2 else 0)

/-- Split a queue at the first packet of the given header type, returning
the packets before it, the packet itself, and the packets after it. -/
def splitFirst (pt : HeaderType) : List QPacket → Option (List QPacket × QPacket × List QPacket)
  | [] => none
  | p :: rest =>
    if p.hdrType = pt then some ([], p, rest)
    else (splitFirst pt rest).map fun t => (p :: t.1, t.2.1, t.2.2)

/-- Modelled from the spec: WimaxConnection::HasPackets() with no header
type, true when any packet is queued. -/
def HasPackets (q : List QPacket) : Bool :=
  !q.isEmpty

/-- Modelled from the spec: WimaxConnection::HasPackets(packetType), true
when some queued packet has the given header type. -/
def HasPacketsOfType (pt : HeaderType) (q : List QPacket) : Bool :=
  (splitFirst pt q).isSome

/-- Modelled from the spec: WimaxMacQueue::GetFirstPacketRequiredByte, the
bytes needed to send the whole head packet of the given type, including
its MAC header and any already-pending fragment sub-header. -/
def GetFirstPacketRequiredByte (pt : HeaderType) (q : List QPacket) : Nat :=
  match splitFirst pt q with
  | some t => requiredBytes t.2.1
  | none => 0

/-- Modelled from the spec: WimaxMacQueue::GetFirstPacketHdrSize, the
header bytes of the head packet of the given type, including any
already-pending fragment sub-header. -/
def GetFirstPacketHdrSize (pt : HeaderType) (q : List QPacket) : Nat :=
  match splitFirst pt q with
  | some t => hdrBytes t.2.1
  | none => 0

/-- Modelled from the spec: WimaxMacQueue::CheckForFragmentation, true
when a fragmentation chain is already in progress for the head packet of
the given type. -/
def CheckForFragmentation (pt : HeaderType) (q : List QPacket) : Bool :=
  match splitFirst pt q with
  | some t => t.2.1.fragmenting
  | none => false

/-- Modelled from the spec: the PHY abstracts a modulation by its positive
bits-per-symbol rate `bps`; WimaxPhy::GetNrBytes is the monotone floor
conversion from symbols to bytes, truncated to its uint32 return type. -/
def GetNrBytes (symbols bps : Nat) : Nat :=
  symbols * bps / 8 % 2 ^ 32

/-- Modelled from the spec: WimaxPhy::GetNrSymbols rounds the byte count
up to whole symbols, truncated to its uint16 return type. -/
def GetNrSymbols (bytes bps : Nat) : Nat :=
  (bytes * 8 + (bps - 1)) / bps % 2 ^ 16

/-- The uint16 compound subtraction availableSymbols -= nrSymbolsRequired
of the source: modular arithmetic on 16 bits. -/
def wsub16 (a b : Nat) : Nat :=
  (a % 2 ^ 16 + 2 ^ 16 - b % 2 ^ 16) % 2 ^ 16

/-- One packet of the output burst: its size in bytes and whether it was
produced by the fragmenting dequeue. -/
structure BurstItem where
  size : Nat
  frag : Bool
deriving DecidableEq

/-- Total byte length of a burst. -/
def totalBytes (b : List BurstItem) : Nat :=
  (b.map BurstItem.size).sum

/-- Termination measure for the packing loop: every dequeue removes a
packet or consumes at least one payload byte of the head packet. -/
def qMeasure (q : List QPacket) : Nat :=
  (q.map fun p => p.payload + 1).sum

theorem qMeasure_append (a b : List QPacket) :
    qMeasure (a ++ b) = qMeasure a + qMeasure b := by
  simp [qMeasure]

theorem qMeasure_cons (p : QPacket) (q : List QPacket) :
    qMeasure (p :: q) = p.payload + 1 + qMeasure q := by
  simp [qMeasure]

theorem splitFirst_decomp {pt : HeaderType} :
    ∀ {q pre post : List QPacket} {p : QPacket},
      splitFirst pt q = some (pre, p, post) → q = pre ++ p :: post := by
  intro q
  induction q with
  | nil => intro pre post p h; simp [splitFirst] at h
  | cons x rest ih =>
    intro pre post p h
    by_cases hx : x.hdrType = pt
    · simp [splitFirst, hx] at h
      obtain ⟨h1, h2, h3⟩ := h
      simp [← h1, h2, h3]
    · rw [splitFirst] at h
      simp only [hx, if_false, Option.map_eq_some'] at h
      obtain ⟨t, hrec, ht⟩ := h
      have hq := ih hrec
      cases ht
      simp [hq]

theorem peek_required {pt : HeaderType} {q pre post : List QPacket} {p : QPacket}
    (hq : splitFirst pt q = some (pre, p, post)) :
    GetFirstPacketRequiredByte pt q = requiredBytes p := by
  unfold GetFirstPacketRequiredByte
  rw [hq]

theorem peek_hdr {pt : HeaderType} {q pre post : List QPacket} {p : QPacket}
    (hq : splitFirst pt q = some (pre, p, post)) :
    GetFirstPacketHdrSize pt q = hdrBytes p := by
  unfold GetFirstPacketHdrSize
  rw [hq]

theorem peek_frag {pt : HeaderType} {q pre post : List QPacket} {p : QPacket}
    (hq : splitFirst pt q = some (pre, p, post)) :
    CheckForFragmentation pt q = p.fragmenting := by
  unfold CheckForFragmentation
  rw [hq]

/-- The packing loop of SSScheduler::Schedule (while loop, source lines
88 to 151), parametrised by the subtraction used on the running symbol
counter.  The peeks GetFirstPacketRequiredByte, GetFirstPacketHdrSize and
CheckForFragmentation and the two dequeues follow the source; the queue
effect of the dequeues is the spec-modelled queue contract. -/
def scheduleLoopG (sub : Nat → Nat → Nat) (bps : Nat) (pt : HeaderType) (ct : CidType)
    (q : List QPacket) (avail : Nat) : List BurstItem × List QPacket × Nat :=
  match hq : splitFirst pt q with
  | none => ([], q, avail)
  | some (pre, p, post) =>
    if h1 : GetFirstPacketRequiredByte pt q ≤ GetNrBytes avail bps then
      let packetSize := requiredBytes p
      let r := scheduleLoopG sub bps pt ct (pre ++ post) (sub avail (GetNrSymbols packetSize bps))
      (⟨packetSize, false⟩ :: r.1, r.2)
    else if h2 : ct = CidType.TRANSPORT then
      if h3 : GetFirstPacketHdrSize pt q + (if CheckForFragmentation pt q then 0 else 2) <
          GetNrBytes avail bps then
        let consumed := min p.payload (GetNrBytes avail bps - (p.hdrSize + 2))
        let packetSize := p.hdrSize + 2 + consumed
        let r := scheduleLoopG sub bps pt ct
            (pre ++
              { payload := p.payload - consumed
                hdrSize := p.hdrSize
                hdrType := p.hdrType
                fragmenting := true } :: post)
            (sub avail (GetNrSymbols packetSize bps))
        (⟨packetSize, true⟩ :: r.1, r.2)
      else ([], q, avail)
    else ([], q, avail)
termination_by qMeasure q
decreasing_by
  · have hd := splitFirst_decomp hq
    subst hd
    simp only [qMeasure_append, qMeasure_cons]
    omega
  · have hreq := peek_required hq
    have hhdr := peek_hdr hq
    have hfr := peek_frag hq
    have hd := splitFirst_decomp hq
    rw [hreq] at h1
    rw [hhdr, hfr] at h3
    subst hd
    simp only [qMeasure_append, qMeasure_cons]
    have hmin1 : min p.payload (GetNrBytes avail bps - (p.hdrSize + 2)) ≤ p.payload :=
      min_le_left _ _
    have hmin2 : 1 ≤ min p.payload (GetNrBytes avail bps - (p.hdrSize + 2)) := by
      apply le_min
      · cases hf : p.fragmenting <;> simp [requiredBytes, hdrBytes, hf] at h1 h3 <;> omega
      · cases hf : p.fragmenting <;> simp [hdrBytes, hf] at h3 <;> omega
    omega

/-- The packing loop of SSScheduler::Schedule as the source runs it: the
symbol counter is a uint16 and the compound subtraction is modular. -/
def scheduleLoop (bps : Nat) (pt : HeaderType) (ct : CidType)
    (q : List QPacket) (avail : Nat) : List BurstItem × List QPacket × Nat :=
  scheduleLoopG wsub16 bps pt ct q avail

/-- Variant of the packing loop demanded by the spec: the counter
subtraction saturates at zero (truncated Nat subtraction). -/
def scheduleLoopSat (bps : Nat) (pt : HeaderType) (ct : CidType)
    (q : List QPacket) (avail : Nat) : List BurstItem × List QPacket × Nat :=
  scheduleLoopG (fun a c => a - c) bps pt ct q avail

/-- A WimaxConnection as the scheduler sees it: its Cid type and its MAC
queue. -/
structure Conn where
  ctype : CidType
  queue : List QPacket
deriving DecidableEq

/-- Modelled from the spec: a service flow binds a TRANSPORT connection
with its QoS timing attributes in milliseconds (ServiceFlow is outside
the scheduler source). -/
structure ServiceFlowM where
  connection : Conn
  unsolicitedGrantInterval : Nat
  unsolicitedPollingInterval : Nat
deriving DecidableEq

/-- Modelled from the spec: the station state SelectConnection consults,
with the four management connections, the per-class service-flow
registries in insertion order, the current time and the PHY frame
duration, both in nanoseconds. -/
structure SSState where
  initialRangingConnection : Conn
  basicConnection : Conn
  primaryConnection : Conn
  broadcastConnection : Conn
  ugsFlows : List ServiceFlowM
  rtpsFlows : List ServiceFlowM
  nrtpsFlows : List ServiceFlowM
  beFlows : List ServiceFlowM
  now : Nat
  frameDuration : Nat
deriving DecidableEq

/-- ns3::MilliSeconds: a millisecond count as a time in nanoseconds. -/
def MilliSeconds (ms : Nat) : Nat :=
  ms * 1000000

/-- Eligibility of a UGS service flow in SelectConnection (source lines
182 and 183): the flow has packets of any header type and the strict time
comparison holds. -/
def ugsEligible (st : SSState) (f : ServiceFlowM) : Bool :=
  HasPackets f.connection.queue &&
    decide (MilliSeconds f.unsolicitedGrantInterval < st.now + st.frameDuration)

/-- Eligibility of an rtPS service flow in SelectConnection (source lines
198 to 200): the flow has packets with the generic MAC header and the
strict time comparison holds. -/
def rtpsEligible (st : SSState) (f : ServiceFlowM) : Bool :=
  HasPacketsOfType HeaderType.GENERIC f.connection.queue &&
    decide (MilliSeconds f.unsolicitedPollingInterval < st.now + st.frameDuration)

/-- Eligibility of an nrtPS service flow in SelectConnection (source line
211): the flow has packets with the generic MAC header. -/
def nrtpsEligible (f : ServiceFlowM) : Bool :=
  HasPacketsOfType HeaderType.GENERIC f.connection.queue

/-- Eligibility of a BE service flow in SelectConnection (source line
222): the flow has packets with the generic MAC header. -/
def beEligible (f : ServiceFlowM) : Bool :=
  HasPacketsOfType HeaderType.GENERIC f.connection.queue

/-- SSScheduler::SelectConnection (source lines 155 to 236): the strict
priority ladder over the management connections, the service-flow
registries and the broadcast connection. -/
def SelectConnection (st : SSState) : Option Conn :=
  if HasPackets st.initialRangingConnection.queue then some st.initialRangingConnection
  else if HasPackets st.basicConnection.queue then some st.basicConnection
  else if HasPackets st.primaryConnection.queue then some st.primaryConnection
  else match st.ugsFlows.find? (ugsEligible st) with
  | some f => some f.connection
  | none => match st.rtpsFlows.find? (rtpsEligible st) with
    | some f => some f.connection
    | none => match st.nrtpsFlows.find? nrtpsEligible with
      | some f => some f.connection
      | none => match st.beFlows.find? beEligible with
        | some f => some f.connection
        | none =>
          if HasPackets st.broadcastConnection.queue then some st.broadcastConnection
          else none

/-- Result of a Schedule call: the burst, the connection reference as the
caller sees it afterwards (with the drained queue), and the final symbol
counter. -/
structure ScheduleOut where
  burst : List BurstItem
  connection : Option Conn
  availableSymbols : Nat
deriving DecidableEq

/-- SSScheduler::Schedule (source lines 66 to 153).  A none result is the
NS_ASSERT failure on a caller-supplied connection without packets; any
other outcome is some burst.  The uint16 parameter availableSymbols is
reduced modulo 2 to the 16. -/
def Schedule (availableSymbols bps : Nat) (packetType : HeaderType) (st : SSState)
    (connection : Option Conn) : Option ScheduleOut :=
  match connection with
  | none =>
    match SelectConnection st with
    | none => some ⟨[], none, availableSymbols % 2 ^ 16⟩
    | some c =>
      let r := scheduleLoop bps packetType c.ctype c.queue (availableSymbols % 2 ^ 16)
      some ⟨r.1, some ⟨c.ctype, r.2.1⟩, r.2.2⟩
  | some c =>
    if HasPackets c.queue then
      let r := scheduleLoop bps packetType c.ctype c.queue (availableSymbols % 2 ^ 16)
      some ⟨r.1, some ⟨c.ctype, r.2.1⟩, r.2.2⟩
    else none

/-- Burst of a Schedule result, empty when the call asserted out. -/
def burstOf (o : Option ScheduleOut) : List BurstItem :=
  (o.map ScheduleOut.burst).getD []

/-- The priority ladder of the spec as data: rung k of SelectConnection
together with the connection it would hand out.  Rungs 0 to 7 are
initial ranging, basic, primary, UGS, rtPS, nrtPS, BE and broadcast; the
ninth level, none, is the fallthrough. -/
def rungChoice (st : SSState) : Nat → Option Conn
  | 0 => if HasPackets st.initialRangingConnection.queue
         then some st.initialRangingConnection else none
  | 1 => if HasPackets st.basicConnection.queue then some st.basicConnection else none
  | 2 => if HasPackets st.primaryConnection.queue then some st.primaryConnection else none
  | 3 => (st.ugsFlows.find? (ugsEligible st)).map ServiceFlowM.connection
  | 4 => (st.rtpsFlows.find? (rtpsEligible st)).map ServiceFlowM.connection
  | 5 => (st.nrtpsFlows.find? nrtpsEligible).map ServiceFlowM.connection
  | 6 => (st.beFlows.find? beEligible).map ServiceFlowM.connection
  | 7 => if HasPackets st.broadcastConnection.queue then some st.broadcastConnection else none
  | _ => none

/-- First defined entry of a list of optional values. -/
def firstSome : List (Option Conn) → Option Conn
  | [] => none
  | o :: rest => match o with
    | some c => some c
    | none => firstSome rest

theorem loopG_nil (sub : Nat → Nat → Nat) (bps : Nat) (pt : HeaderType) (ct : CidType)
    (avail : Nat) {q : List QPacket} (hq : splitFirst pt q = none) :
    scheduleLoopG sub bps pt ct q avail = ([], q, avail) := by
  rw [scheduleLoopG.eq_def]
  split
  · rfl
  · rename_i pre p post heq
    rw [hq] at heq
    cases heq

theorem loopG_whole (sub : Nat → Nat → Nat) (bps : Nat) (pt : HeaderType) (ct : CidType)
    (avail : Nat) {q pre post : List QPacket} {p : QPacket}
    (hq : splitFirst pt q = some (pre, p, post))
    (hA : GetFirstPacketRequiredByte pt q ≤ GetNrBytes avail bps) :
    scheduleLoopG sub bps pt ct q avail =
      ((⟨requiredBytes p, false⟩ : BurstItem) ::
        (scheduleLoopG sub bps pt ct (pre ++ post)
          (sub avail (GetNrSymbols (requiredBytes p) bps))).1,
       (scheduleLoopG sub bps pt ct (pre ++ post)
          (sub avail (GetNrSymbols (requiredBytes p) bps))).2) := by
  rw [scheduleLoopG.eq_def]
  split
  · rename_i heq
    rw [hq] at heq
    cases heq
  · rename_i pre2 p2 post2 heq
    rw [hq] at heq
    injection heq with heq2
    injection heq2 with e1 e2
    injection e2 with e2 e3
    subst e1 e2 e3
    rw [dif_pos hA]

theorem loopG_frag (sub : Nat → Nat → Nat) (bps : Nat) (pt : HeaderType)
    (avail : Nat) {q pre post : List QPacket} {p : QPacket}
    (hq : splitFirst pt q = some (pre, p, post))
    (hA : ¬ GetFirstPacketRequiredByte pt q ≤ GetNrBytes avail bps)
    (hH : GetFirstPacketHdrSize pt q + (if CheckForFragmentation pt q then 0 else 2) <
      GetNrBytes avail bps) :
    scheduleLoopG sub bps pt CidType.TRANSPORT q avail =
      ((⟨p.hdrSize + 2 + min p.payload (GetNrBytes avail bps - (p.hdrSize + 2)), true⟩ :
          BurstItem) ::
        (scheduleLoopG sub bps pt CidType.TRANSPORT
          (pre ++
            { payload := p.payload - min p.payload (GetNrBytes avail bps - (p.hdrSize + 2))
              hdrSize := p.hdrSize
              hdrType := p.hdrType
              fragmenting := true } :: post)
          (sub avail
            (GetNrSymbols (p.hdrSize + 2 + min p.payload (GetNrBytes avail bps - (p.hdrSize + 2)))
              bps))).1,
       (scheduleLoopG sub bps pt CidType.TRANSPORT
          (pre ++
            { payload := p.payload - min p.payload (GetNrBytes avail bps - (p.hdrSize + 2))
              hdrSize := p.hdrSize
              hdrType := p.hdrType
              fragmenting := true } :: post)
          (sub avail
            (GetNrSymbols (p.hdrSize + 2 + min p.payload (GetNrBytes avail bps - (p.hdrSize + 2)))
              bps))).2) := by
  rw [scheduleLoopG.eq_def]
  split
  · rename_i heq
    rw [hq] at heq
    cases heq
  · rename_i pre2 p2 post2 heq
    rw [hq] at heq
    injection heq with heq2
    injection heq2 with e1 e2
    injection e2 with e2 e3
    subst e1 e2 e3
    rw [dif_neg hA, dif_pos rfl, dif_pos hH]

theorem loopG_fragStuck (sub : Nat → Nat → Nat) (bps : Nat) (pt : HeaderType)
    (avail : Nat) {q pre post : List QPacket} {p : QPacket}
    (hq : splitFirst pt q = some (pre, p, post))
    (hA : ¬ GetFirstPacketRequiredByte pt q ≤ GetNrBytes avail bps)
    (hH : ¬ GetFirstPacketHdrSize pt q + (if CheckForFragmentation pt q then 0 else 2) <
      GetNrBytes avail bps) :
    scheduleLoopG sub bps pt CidType.TRANSPORT q avail = ([], q, avail) := by
  rw [scheduleLoopG.eq_def]
  split
  all_goals try rfl
  rename_i pre2 p2 post2 heq
  rw [hq] at heq
  injection heq with heq2
  injection heq2 with e1 e2
  injection e2 with e2 e3
  subst e1 e2 e3
  rw [dif_neg hA, dif_pos rfl, dif_neg hH]

theorem loopG_stuck (sub : Nat → Nat → Nat) (bps : Nat) (pt : HeaderType) (ct : CidType)
    (avail : Nat) {q pre post : List QPacket} {p : QPacket}
    (hq : splitFirst pt q = some (pre, p, post))
    (hA : ¬ GetFirstPacketRequiredByte pt q ≤ GetNrBytes avail bps)
    (hct : ct ≠ CidType.TRANSPORT) :
    scheduleLoopG sub bps pt ct q avail = ([], q, avail) := by
  rw [scheduleLoopG.eq_def]
  split
  all_goals try rfl
  rename_i pre2 p2 post2 heq
  rw [hq] at heq
  injection heq with heq2
  injection heq2 with e1 e2
  injection e2 with e2 e3
  subst e1 e2 e3
  rw [dif_neg hA, dif_neg hct]

theorem totalBytes_nil : totalBytes [] = 0 := rfl

theorem totalBytes_cons (b : BurstItem) (l : List BurstItem) :
    totalBytes (b :: l) = b.size + totalBytes l := by
  simp [totalBytes]

/-- The untruncated round-up conversion from bytes to symbols. -/
def ceil8 (bps x : Nat) : Nat :=
  (x * 8 + (bps - 1)) / bps

theorem getNrSymbols_eq {bps x : Nat} (h : ceil8 bps x < 2 ^ 16) :
    GetNrSymbols x bps = ceil8 bps x := by
  unfold GetNrSymbols
  unfold ceil8 at h
  exact Nat.mod_eq_of_lt h

theorem getNrBytes_eq {avail bps : Nat} (h16 : avail < 2 ^ 16) (h19 : bps < 2 ^ 19) :
    GetNrBytes avail bps = avail * bps / 8 := by
  unfold GetNrBytes
  apply Nat.mod_eq_of_lt
  have h1 : avail * bps < 2 ^ 16 * 2 ^ 19 :=
    mul_lt_mul'' h16 h19 (Nat.zero_le _) (Nat.zero_le _)
  have h2 : avail * bps / 8 < 2 ^ 32 := by
    rw [Nat.div_lt_iff_lt_mul (by norm_num : (0:Nat) < 8)]
    calc avail * bps < 2 ^ 16 * 2 ^ 19 := h1
      _ ≤ 2 ^ 32 * 8 := by norm_num
  exact h2

theorem ceil8_zero {bps : Nat} (h0 : 0 < bps) : ceil8 bps 0 = 0 := by
  unfold ceil8
  rw [Nat.zero_mul, Nat.zero_add]
  exact Nat.div_eq_of_lt (by omega)

theorem ceil8_le_of_le_mul {bps m x : Nat} (h0 : 0 < bps) (h : x * 8 ≤ m * bps) :
    ceil8 bps x ≤ m := by
  unfold ceil8
  have h1 : x * 8 + (bps - 1) ≤ m * bps + (bps - 1) := by omega
  calc (x * 8 + (bps - 1)) / bps ≤ (m * bps + (bps - 1)) / bps := Nat.div_le_div_right h1
    _ = m + (bps - 1) / bps := by rw [Nat.mul_comm m bps, Nat.mul_add_div h0]
    _ = m := by rw [Nat.div_eq_of_lt (by omega), Nat.add_zero]

theorem ceil8_mul_ge {bps : Nat} (h0 : 0 < bps) (x : Nat) : x * 8 ≤ ceil8 bps x * bps := by
  unfold ceil8
  have hdm := Nat.div_add_mod (x * 8 + (bps - 1)) bps
  have hlt := Nat.mod_lt (x * 8 + (bps - 1)) h0
  have hmul : bps * ((x * 8 + (bps - 1)) / bps) = (x * 8 + (bps - 1)) / bps * bps :=
    Nat.mul_comm _ _
  omega

theorem ceil8_add_le {bps x y : Nat} (h0 : 0 < bps) :
    ceil8 bps (x + y) ≤ ceil8 bps x + ceil8 bps y := by
  apply ceil8_le_of_le_mul h0
  have hx := ceil8_mul_ge h0 x
  have hy := ceil8_mul_ge h0 y
  rw [Nat.add_mul, Nat.add_mul]
  omega

theorem ceil8_le_symbols {bps s x : Nat} (h0 : 0 < bps) (hx : x ≤ s * bps / 8) :
    ceil8 bps x ≤ s := by
  apply ceil8_le_of_le_mul h0
  have h1 : s * bps / 8 * 8 ≤ s * bps := Nat.div_mul_le_self _ _
  have h2 : x * 8 ≤ s * bps / 8 * 8 := Nat.mul_le_mul_right _ hx
  omega

theorem wsub16_eq_sub {a b : Nat} (ha : a < 2 ^ 16) (hb : b ≤ a) : wsub16 a b = a - b := by
  unfold wsub16
  rw [Nat.mod_eq_of_lt ha, Nat.mod_eq_of_lt (lt_of_le_of_lt hb ha)]
  have h1 : a + 2 ^ 16 - b = a - b + 2 ^ 16 := by omega
  rw [h1, Nat.add_mod_right, Nat.mod_eq_of_lt (by omega)]

theorem qMeasure_whole_lt {pt : HeaderType} {q pre post : List QPacket} {p : QPacket}
    (hq : splitFirst pt q = some (pre, p, post)) :
    qMeasure (pre ++ post) < qMeasure q := by
  have hd := splitFirst_decomp hq
  subst hd
  simp only [qMeasure_append, qMeasure_cons]
  omega

theorem qMeasure_frag_lt {pt : HeaderType} {q pre post : List QPacket} {p : QPacket}
    (hq : splitFirst pt q = some (pre, p, post)) {c : Nat} (hc : 1 ≤ c)
    (hp : 1 ≤ p.payload) :
    qMeasure
        (pre ++
          { payload := p.payload - c
            hdrSize := p.hdrSize
            hdrType := p.hdrType
            fragmenting := true } :: post) <
      qMeasure q := by
  have hd := splitFirst_decomp hq
  subst hd
  simp only [qMeasure_append, qMeasure_cons]
  omega

theorem hdr_plus_ite {pt : HeaderType} {q pre post : List QPacket} {p : QPacket}
    (hq : splitFirst pt q = some (pre, p, post)) :
    GetFirstPacketHdrSize pt q + (if CheckForFragmentation pt q then 0 else 2) =
      p.hdrSize + 2 := by
  rw [peek_hdr hq, peek_frag hq]
  unfold hdrBytes
  cases p.fragmenting <;> simp

theorem loop_master {bps : Nat} (pt : HeaderType) (ct : CidType)
    (h0 : 0 < bps) (h19 : bps < 2 ^ 19) :
    ∀ n q avail, qMeasure q ≤ n → avail < 2 ^ 16 →
      (scheduleLoopG wsub16 bps pt ct q avail).2.2 ≤ avail ∧
      ceil8 bps (totalBytes (scheduleLoopG wsub16 bps pt ct q avail).1) +
          (scheduleLoopG wsub16 bps pt ct q avail).2.2 ≤ avail ∧
      scheduleLoopG wsub16 bps pt ct q avail =
        scheduleLoopG (fun a c => a - c) bps pt ct q avail := by
  intro n
  induction n with
  | zero =>
    intro q avail hm h16
    have hq : splitFirst pt q = none := by
      cases q with
      | nil => rfl
      | cons x rest => rw [qMeasure_cons] at hm; omega
    rw [loopG_nil _ _ _ _ _ hq, loopG_nil _ _ _ _ _ hq]
    refine ⟨le_refl _, ?_, rfl⟩
    dsimp only
    rw [totalBytes_nil, ceil8_zero h0]
    omega
  | succ n ih =>
    intro q avail hm h16
    match hq : splitFirst pt q with
    | none =>
      rw [loopG_nil _ _ _ _ _ hq, loopG_nil _ _ _ _ _ hq]
      refine ⟨le_refl _, ?_, rfl⟩
      show ceil8 bps (totalBytes []) + avail ≤ avail
      rw [totalBytes_nil, ceil8_zero h0]
      omega
    | some (pre, p, post) =>
      have hAeq : GetNrBytes avail bps = avail * bps / 8 := getNrBytes_eq h16 h19
      by_cases hA : GetFirstPacketRequiredByte pt q ≤ GetNrBytes avail bps
      · -- whole-packet branch
        have hsz : requiredBytes p ≤ avail * bps / 8 := by
          rw [peek_required hq, hAeq] at hA
          exact hA
        have hcost : ceil8 bps (requiredBytes p) ≤ avail := ceil8_le_symbols h0 hsz
        have hc16 : ceil8 bps (requiredBytes p) < 2 ^ 16 := lt_of_le_of_lt hcost h16
        have hsym : GetNrSymbols (requiredBytes p) bps = ceil8 bps (requiredBytes p) :=
          getNrSymbols_eq hc16
        have hw : wsub16 avail (GetNrSymbols (requiredBytes p) bps) =
            avail - ceil8 bps (requiredBytes p) := by
          rw [hsym]
          exact wsub16_eq_sub h16 hcost
        have hm2 : qMeasure (pre ++ post) ≤ n := by
          have := qMeasure_whole_lt hq
          omega
        have h16b : avail - ceil8 bps (requiredBytes p) < 2 ^ 16 := by omega
        obtain ⟨ih1, ih2, ih3⟩ :=
          ih (pre ++ post) (avail - ceil8 bps (requiredBytes p)) hm2 h16b
        rw [loopG_whole wsub16 bps pt ct avail hq hA,
          loopG_whole (fun a c => a - c) bps pt ct avail hq hA, hw, hsym, ih3]
        refine ⟨?_, ?_, rfl⟩
        · dsimp only
          rw [← ih3]
          omega
        · dsimp only
          rw [totalBytes_cons, ← ih3]
          dsimp only
          have hadd := @ceil8_add_le bps (requiredBytes p)
            (totalBytes (scheduleLoopG wsub16 bps pt ct (pre ++ post)
              (avail - ceil8 bps (requiredBytes p))).1) h0
          omega
      · by_cases hct : ct = CidType.TRANSPORT
        · subst hct
          by_cases hH : GetFirstPacketHdrSize pt q +
              (if CheckForFragmentation pt q then 0 else 2) < GetNrBytes avail bps
          · -- fragmentation branch
            have hHeq := hdr_plus_ite hq
            have hh2 : p.hdrSize + 2 < GetNrBytes avail bps := by
              rw [hHeq] at hH
              exact hH
            have hp1 : 1 ≤ p.payload := by
              rw [peek_required hq] at hA
              unfold requiredBytes at hA
              cases hf : p.fragmenting <;> rw [hf] at hA <;> simp at hA <;> omega
            have hc1 : 1 ≤ min p.payload (GetNrBytes avail bps - (p.hdrSize + 2)) :=
              le_min hp1 (by omega)
            have hszA : p.hdrSize + 2 + min p.payload (GetNrBytes avail bps - (p.hdrSize + 2)) ≤
                GetNrBytes avail bps := by
              have := min_le_right p.payload (GetNrBytes avail bps - (p.hdrSize + 2))
              omega
            have hsz : p.hdrSize + 2 + min p.payload (GetNrBytes avail bps - (p.hdrSize + 2)) ≤
                avail * bps / 8 := by
              rw [← hAeq]
              exact hszA
            have hcost : ceil8 bps (p.hdrSize + 2 +
                min p.payload (GetNrBytes avail bps - (p.hdrSize + 2))) ≤ avail :=
              ceil8_le_symbols h0 hsz
            have hc16 : ceil8 bps (p.hdrSize + 2 +
                min p.payload (GetNrBytes avail bps - (p.hdrSize + 2))) < 2 ^ 16 :=
              lt_of_le_of_lt hcost h16
            have hsym : GetNrSymbols (p.hdrSize + 2 +
                min p.payload (GetNrBytes avail bps - (p.hdrSize + 2))) bps =
                ceil8 bps (p.hdrSize + 2 +
                  min p.payload (GetNrBytes avail bps - (p.hdrSize + 2))) :=
              getNrSymbols_eq hc16
            have hw : wsub16 avail (GetNrSymbols (p.hdrSize + 2 +
                min p.payload (GetNrBytes avail bps - (p.hdrSize + 2))) bps) =
                avail - ceil8 bps (p.hdrSize + 2 +
                  min p.payload (GetNrBytes avail bps - (p.hdrSize + 2))) := by
              rw [hsym]
              exact wsub16_eq_sub h16 hcost
            have hm2 : qMeasure
                (pre ++
                  { payload := p.payload -
                      min p.payload (GetNrBytes avail bps - (p.hdrSize + 2))
                    hdrSize := p.hdrSize
                    hdrType := p.hdrType
                    fragmenting := true } :: post) ≤ n := by
              have := qMeasure_frag_lt hq hc1 hp1
              omega
            have h16b : avail - ceil8 bps (p.hdrSize + 2 +
                min p.payload (GetNrBytes avail bps - (p.hdrSize + 2))) < 2 ^ 16 := by omega
            obtain ⟨ih1, ih2, ih3⟩ := ih _ _ hm2 h16b
            rw [loopG_frag wsub16 bps pt avail hq hA hH,
              loopG_frag (fun a c => a - c) bps pt avail hq hA hH, hw, hsym, ih3]
            refine ⟨?_, ?_, rfl⟩
            · dsimp only
              rw [← ih3]
              omega
            · dsimp only
              rw [totalBytes_cons, ← ih3]
              dsimp only
              have hadd := @ceil8_add_le bps
                (p.hdrSize + 2 + min p.payload (GetNrBytes avail bps - (p.hdrSize + 2)))
                (totalBytes (scheduleLoopG wsub16 bps pt CidType.TRANSPORT
                  (pre ++
                    { payload := p.payload -
                        min p.payload (GetNrBytes avail bps - (p.hdrSize + 2))
                      hdrSize := p.hdrSize
                      hdrType := p.hdrType
                      fragmenting := true } :: post)
                  (avail - ceil8 bps (p.hdrSize + 2 +
                    min p.payload (GetNrBytes avail bps - (p.hdrSize + 2))))).1) h0
              omega
          · rw [loopG_fragStuck wsub16 bps pt avail hq hA hH,
              loopG_fragStuck (fun a c => a - c) bps pt avail hq hA hH]
            refine ⟨le_refl _, ?_, rfl⟩
            dsimp only
            rw [totalBytes_nil, ceil8_zero h0]
            omega
        · rw [loopG_stuck wsub16 bps pt ct avail hq hA hct,
            loopG_stuck (fun a c => a - c) bps pt ct avail hq hA hct]
          refine ⟨le_refl _, ?_, rfl⟩
          dsimp only
          rw [totalBytes_nil, ceil8_zero h0]
          omega

/-- The nine-level ladder as data: rungs 0 to 7 in priority order. -/
def rungList (st : SSState) : List (Option Conn) :=
  [rungChoice st 0, rungChoice st 1, rungChoice st 2, rungChoice st 3,
   rungChoice st 4, rungChoice st 5, rungChoice st 6, rungChoice st 7]

theorem firstSome_of_all_none :
    ∀ {l : List (Option Conn)}, (∀ o ∈ l, o = none) → firstSome l = none := by
  intro l
  induction l with
  | nil => intro _; rfl
  | cons o rest ih =>
    intro h
    have ho : o = none := h o (List.mem_cons_self _ _)
    subst ho
    rw [firstSome]
    exact ih fun o hm => h o (List.mem_cons_of_mem _ hm)

theorem firstSome_first :
    ∀ (l : List (Option Conn)) (k : Nat) (hk : k < l.length),
      (l.get ⟨k, hk⟩).isSome →
      ∃ j, ∃ hj : j < l.length, j ≤ k ∧ (l.get ⟨j, hj⟩).isSome ∧
        firstSome l = l.get ⟨j, hj⟩ := by
  intro l
  induction l with
  | nil => intro k hk; exact absurd hk (Nat.not_lt_zero k)
  | cons o rest ih =>
    intro k hk hs
    cases o with
    | some c =>
      refine ⟨0, by simp, Nat.zero_le _, by simp, ?_⟩
      rw [firstSome]
      simp
    | none =>
      cases k with
      | zero => simp at hs
      | succ k2 =>
        have hk2 : k2 < rest.length := by
          simp at hk
          omega
        have hs2 : (rest.get ⟨k2, hk2⟩).isSome := by
          simpa using hs
        obtain ⟨j, hj, hjk, hjs, hfs⟩ := ih k2 hk2 hs2
        refine ⟨j + 1, by simp; omega, by omega, by simpa using hjs, ?_⟩
        rw [firstSome]
        simpa using hfs

theorem rungList_get (st : SSState) (j : Nat) (hj : j < (rungList st).length) :
    (rungList st).get ⟨j, hj⟩ = rungChoice st j := by
  have hl : j < 8 := hj
  interval_cases j <;> rfl

theorem splitFirst_none_of_no_type {pt : HeaderType} :
    ∀ {q : List QPacket}, (∀ p ∈ q, p.hdrType ≠ pt) → splitFirst pt q = none := by
  intro q
  induction q with
  | nil => intro _; rfl
  | cons x rest ih =>
    intro h
    rw [splitFirst]
    rw [if_neg (h x (List.mem_cons_self _ _))]
    rw [ih fun p hm => h p (List.mem_cons_of_mem _ hm)]
    rfl

theorem getNrBytes_zero (bps : Nat) : GetNrBytes 0 bps = 0 := by
  unfold GetNrBytes
  rw [Nat.zero_mul, Nat.zero_div, Nat.zero_mod]

theorem loop_zero_budget (sub : Nat → Nat → Nat) (bps : Nat) (pt : HeaderType) (ct : CidType)
    (q : List QPacket)
    (hR : HasPacketsOfType pt q = true → 0 < GetFirstPacketRequiredByte pt q) :
    scheduleLoopG sub bps pt ct q 0 = ([], q, 0) := by
  match hq : splitFirst pt q with
  | none => exact loopG_nil sub bps pt ct 0 hq
  | some (pre, p, post) =>
    have hhp : HasPacketsOfType pt q = true := by
      unfold HasPacketsOfType
      rw [hq]
      rfl
    have hRpos := hR hhp
    have hA : ¬ GetFirstPacketRequiredByte pt q ≤ GetNrBytes 0 bps := by
      rw [getNrBytes_zero]
      omega
    by_cases hct : ct = CidType.TRANSPORT
    · subst hct
      have hH : ¬ GetFirstPacketHdrSize pt q +
          (if CheckForFragmentation pt q then 0 else 2) < GetNrBytes 0 bps := by
        rw [getNrBytes_zero]
        omega
      exact loopG_fragStuck sub bps pt 0 hq hA hH
    · exact loopG_stuck sub bps pt ct 0 hq hA hct

theorem selectConnection_eq_firstSome (st : SSState) :
    SelectConnection st = firstSome (rungList st) := by
  by_cases h0 : HasPackets st.initialRangingConnection.queue = true
  · simp [SelectConnection, rungList, rungChoice, firstSome, h0]
  by_cases h1 : HasPackets st.basicConnection.queue = true
  · simp [SelectConnection, rungList, rungChoice, firstSome, h0, h1]
  by_cases h2 : HasPackets st.primaryConnection.queue = true
  · simp [SelectConnection, rungList, rungChoice, firstSome, h0, h1, h2]
  cases hU : st.ugsFlows.find? (ugsEligible st) with
  | some f => simp [SelectConnection, rungList, rungChoice, firstSome, h0, h1, h2, hU]
  | none =>
    cases hRt : st.rtpsFlows.find? (rtpsEligible st) with
    | some f =>
      simp [SelectConnection, rungList, rungChoice, firstSome, h0, h1, h2, hU, hRt]
    | none =>
      cases hN : st.nrtpsFlows.find? nrtpsEligible with
      | some f =>
        simp [SelectConnection, rungList, rungChoice, firstSome, h0, h1, h2, hU, hRt, hN]
      | none =>
        cases hBE : st.beFlows.find? beEligible with
        | some f =>
          simp [SelectConnection, rungList, rungChoice, firstSome,
            h0, h1, h2, hU, hRt, hN, hBE]
        | none =>
          by_cases h7 : HasPackets st.broadcastConnection.queue = true
          · simp [SelectConnection, rungList, rungChoice, firstSome,
              h0, h1, h2, hU, hRt, hN, hBE, h7]
          · simp [SelectConnection, rungList, rungChoice, firstSome,
              h0, h1, h2, hU, hRt, hN, hBE, h7]

/-- A connection with the given Cid type and no queued packets. -/
def emptyConn (t : CidType) : Conn :=
  ⟨t, []⟩

/-- A station with nothing queued anywhere. -/
def stEmpty : SSState :=
  ⟨emptyConn CidType.INITIAL_RANGING, emptyConn CidType.BASIC, emptyConn CidType.PRIMARY,
   emptyConn CidType.BROADCAST, [], [], [], [], 0, 0⟩

/-- A station whose basic connection alone has a queued packet. -/
def stBasic : SSState :=
  ⟨emptyConn CidType.INITIAL_RANGING, ⟨CidType.BASIC, [⟨10, 6, HeaderType.GENERIC, false⟩]⟩,
   emptyConn CidType.PRIMARY, emptyConn CidType.BROADCAST, [], [], [], [], 0, 0⟩

/-- C4: SelectConnection evaluates the nine-level priority ladder in order,
returning the first connection whose eligibility predicate holds; when the
rung at level k is eligible the selection comes from some level j at or
above k, and when no rung is eligible the result is none. -/
theorem SelectConnection_priority_order (st : SSState) :
    SelectConnection st = firstSome (rungList st) ∧
    (∀ k, k < 8 → (rungChoice st k).isSome = true →
      ∃ j, j ≤ k ∧ (rungChoice st j).isSome = true ∧
        SelectConnection st = rungChoice st j) ∧
    ((∀ k, rungChoice st k = none) → SelectConnection st = none) := by
  have h1 := selectConnection_eq_firstSome st
  refine ⟨h1, ?_, ?_⟩
  · intro k hk hks
    have hlen : (rungList st).length = 8 := rfl
    have hk8 : k < (rungList st).length := by omega
    have hs : ((rungList st).get ⟨k, hk8⟩).isSome := by
      rw [rungList_get st k hk8]
      exact hks
    obtain ⟨j, hj, hjk, hjs, hfs⟩ := firstSome_first (rungList st) k hk8 hs
    refine ⟨j, hjk, ?_, ?_⟩
    · rw [← rungList_get st j hj]
      exact hjs
    · rw [h1, hfs, rungList_get st j hj]
  · intro hall
    rw [h1]
    apply firstSome_of_all_none
    intro o ho
    simp only [rungList, List.mem_cons, List.not_mem_nil, or_false] at ho
    rcases ho with h | h | h | h | h | h | h | h <;> rw [h] <;> exact hall _

/-- Witness for C4 at a station whose basic connection has traffic. -/
theorem SelectConnection_priority_order_witness :
    ∃ j, j ≤ 1 ∧ (rungChoice stBasic j).isSome = true ∧
      SelectConnection stBasic = rungChoice stBasic j :=
  (SelectConnection_priority_order stBasic).2.1 1 (by decide) (by decide)

/-- The boundary UGS flow: packets queued, and its grant interval as an
instant equals now plus the frame duration exactly. -/
def fBoundary : ServiceFlowM :=
  ⟨⟨CidType.TRANSPORT, [⟨100, 6, HeaderType.GENERIC, false⟩]⟩, 1, 1⟩

/-- A station whose only traffic is the boundary UGS flow. -/
def stBoundary : SSState :=
  ⟨emptyConn CidType.INITIAL_RANGING, emptyConn CidType.BASIC, emptyConn CidType.PRIMARY,
   emptyConn CidType.BROADCAST, [fBoundary], [], [], [], 0, 1000000⟩

/-- C3 counterexample: the sole UGS flow has packets and satisfies the
claimed non-strict deadline comparison with equality, yet SelectConnection
selects nothing, because the source comparison is strict. -/
theorem SelectConnection_nonstrict_deadline_cex :
    SelectConnection stBoundary = none ∧
    stBoundary.ugsFlows = [fBoundary] ∧
    HasPackets fBoundary.connection.queue = true ∧
    MilliSeconds fBoundary.unsolicitedGrantInterval ≤
      stBoundary.now + stBoundary.frameDuration := by
  refine ⟨by decide, rfl, by decide, by decide⟩

/-- C3 (amended): with the management and broadcast queues empty and the
lower rungs unpopulated, a sole UGS flow is selected exactly when it has
packets and the strict comparison now + frame_duration >
unsolicited_grant_interval holds, and a sole rtPS flow is selected exactly
when it has GENERIC packets and the strict comparison against
unsolicited_polling_interval holds. -/
theorem SelectConnection_deadline_strict (st : SSState) (f g : ServiceFlowM)
    (hR : st.initialRangingConnection.queue = [])
    (hB : st.basicConnection.queue = [])
    (hP : st.primaryConnection.queue = [])
    (hBC : st.broadcastConnection.queue = [])
    (hN : st.nrtpsFlows = [])
    (hE : st.beFlows = []) :
    (st.ugsFlows = [f] → st.rtpsFlows = [] →
      (SelectConnection st = some f.connection ↔
        HasPackets f.connection.queue = true ∧
          MilliSeconds f.unsolicitedGrantInterval < st.now + st.frameDuration)) ∧
    (st.ugsFlows = [] → st.rtpsFlows = [g] →
      (SelectConnection st = some g.connection ↔
        HasPacketsOfType HeaderType.GENERIC g.connection.queue = true ∧
          MilliSeconds g.unsolicitedPollingInterval < st.now + st.frameDuration)) := by
  constructor
  · intro hu hr
    have hdef : (ugsEligible st f = true) ↔
        (HasPackets f.connection.queue = true ∧
          MilliSeconds f.unsolicitedGrantInterval < st.now + st.frameDuration) := by
      unfold ugsEligible
      rw [Bool.and_eq_true, decide_eq_true_eq]
    rw [← hdef]
    unfold SelectConnection
    rw [hR, hB, hP, hBC, hu, hr, hN, hE]
    by_cases helig : ugsEligible st f = true
    · have hfind : List.find? (ugsEligible st) [f] = some f :=
        List.find?_cons_of_pos _ helig
      simp [hfind, helig, HasPackets]
    · have hfind : List.find? (ugsEligible st) [f] = none := by
        rw [List.find?_cons_of_neg _ helig]
        rfl
      simp [hfind, helig, HasPackets]
  · intro hu hr
    have hdef : (rtpsEligible st g = true) ↔
        (HasPacketsOfType HeaderType.GENERIC g.connection.queue = true ∧
          MilliSeconds g.unsolicitedPollingInterval < st.now + st.frameDuration) := by
      unfold rtpsEligible
      rw [Bool.and_eq_true, decide_eq_true_eq]
    rw [← hdef]
    unfold SelectConnection
    rw [hR, hB, hP, hBC, hu, hr, hN, hE]
    by_cases helig : rtpsEligible st g = true
    · have hfind : List.find? (rtpsEligible st) [g] = some g :=
        List.find?_cons_of_pos _ helig
      simp [hfind, helig, HasPackets]
    · have hfind : List.find? (rtpsEligible st) [g] = none := by
        rw [List.find?_cons_of_neg _ helig]
        rfl
      simp [hfind, helig, HasPackets]

/-- Witness for C3 (amended) at the boundary station. -/
theorem SelectConnection_deadline_strict_witness :
    (stBoundary.ugsFlows = [fBoundary] → stBoundary.rtpsFlows = [] →
      (SelectConnection stBoundary = some fBoundary.connection ↔
        HasPackets fBoundary.connection.queue = true ∧
          MilliSeconds fBoundary.unsolicitedGrantInterval <
            stBoundary.now + stBoundary.frameDuration)) ∧
    (stBoundary.ugsFlows = [] → stBoundary.rtpsFlows = [fBoundary] →
      (SelectConnection stBoundary = some fBoundary.connection ↔
        HasPacketsOfType HeaderType.GENERIC fBoundary.connection.queue = true ∧
          MilliSeconds fBoundary.unsolicitedPollingInterval <
            stBoundary.now + stBoundary.frameDuration)) :=
  SelectConnection_deadline_strict stBoundary fBoundary fBoundary rfl rfl rfl rfl rfl rfl

/-- C9: when no connection is supplied and SelectConnection finds none,
Schedule returns an empty but present burst, leaves the connection
reference empty, touches no queue, and leaves the counter unchanged; on
the unchanged station a repeat call gives the same empty burst. -/
theorem Schedule_none_selected_empty (availableSymbols bps : Nat) (pt : HeaderType)
    (st : SSState) (h : SelectConnection st = none) :
    Schedule availableSymbols bps pt st none =
      some ⟨[], none, availableSymbols % 2 ^ 16⟩ := by
  unfold Schedule
  rw [h]

/-- Witness for C9 at the empty station. -/
theorem Schedule_none_selected_empty_witness :
    Schedule 100 8 HeaderType.GENERIC stEmpty none = some ⟨[], none, 100 % 2 ^ 16⟩ :=
  Schedule_none_selected_empty 100 8 HeaderType.GENERIC stEmpty (by decide)

/-- C10: the caller-contract assertion only checks for packets of any
header type, so a supplied connection whose queued packets all carry a
different header type passes the assertion and Schedule returns an empty
burst without dequeuing anything. -/
theorem Schedule_header_type_mismatch (availableSymbols bps : Nat) (pt : HeaderType)
    (st : SSState) (c : Conn) (hne : c.queue ≠ [])
    (hmt : ∀ p ∈ c.queue, p.hdrType ≠ pt) :
    Schedule availableSymbols bps pt st (some c) =
      some ⟨[], some c, availableSymbols % 2 ^ 16⟩ := by
  have hhp : HasPackets c.queue = true := by
    unfold HasPackets
    cases hc : c.queue with
    | nil => exact absurd hc hne
    | cons a l => rfl
  simp only [Schedule]
  rw [if_pos hhp]
  have hsp : splitFirst pt c.queue = none := splitFirst_none_of_no_type hmt
  have hloop : scheduleLoop bps pt c.ctype c.queue (availableSymbols % 2 ^ 16) =
      ([], c.queue, availableSymbols % 2 ^ 16) :=
    loopG_nil wsub16 bps pt c.ctype (availableSymbols % 2 ^ 16) hsp
  rw [hloop]

/-- Witness for C10: a queue of GENERIC packets scheduled for a
bandwidth-request grant. -/
theorem Schedule_header_type_mismatch_witness :
    Schedule 100 8 HeaderType.BANDWIDTH stEmpty
        (some ⟨CidType.TRANSPORT, [⟨10, 6, HeaderType.GENERIC, false⟩]⟩) =
      some ⟨[], some ⟨CidType.TRANSPORT, [⟨10, 6, HeaderType.GENERIC, false⟩]⟩,
        100 % 2 ^ 16⟩ :=
  Schedule_header_type_mismatch 100 8 HeaderType.BANDWIDTH stEmpty
    ⟨CidType.TRANSPORT, [⟨10, 6, HeaderType.GENERIC, false⟩]⟩ (by decide) (by decide)

/-- The degenerate packet: the queue reports zero required bytes for it. -/
def pDeg : QPacket :=
  ⟨0, 0, HeaderType.GENERIC, false⟩

/-- A TRANSPORT connection holding only the degenerate packet. -/
def cDeg : Conn :=
  ⟨CidType.TRANSPORT, [pDeg]⟩

/-- C7 (amended): a Schedule call with zero available symbols returns an
empty burst and leaves the queue untouched, provided the head packet of
the requested header type, when one exists, has nonzero required bytes. -/
theorem Schedule_zero_symbols (bps : Nat) (pt : HeaderType) (st : SSState) (c : Conn)
    (hne : c.queue ≠ [])
    (hR : HasPacketsOfType pt c.queue = true → 0 < GetFirstPacketRequiredByte pt c.queue) :
    Schedule 0 bps pt st (some c) = some ⟨[], some c, 0⟩ ∧
    (SelectConnection st = some c → Schedule 0 bps pt st none = some ⟨[], some c, 0⟩) := by
  have h0 : (0 : Nat) % 2 ^ 16 = 0 := Nat.zero_mod _
  have hloop : scheduleLoop bps pt c.ctype c.queue 0 = ([], c.queue, 0) :=
    loop_zero_budget wsub16 bps pt c.ctype c.queue hR
  have hhp : HasPackets c.queue = true := by
    unfold HasPackets
    cases hc : c.queue with
    | nil => exact absurd hc hne
    | cons a l => rfl
  constructor
  · simp only [Schedule]
    rw [if_pos hhp, h0, hloop]
  · intro hsel
    simp only [Schedule]
    rw [hsel, h0]
    show (some (ScheduleOut.mk (scheduleLoop bps pt c.ctype c.queue 0).1
        (some ⟨c.ctype, (scheduleLoop bps pt c.ctype c.queue 0).2.1⟩)
        (scheduleLoop bps pt c.ctype c.queue 0).2.2) : Option ScheduleOut) =
      some ⟨[], some c, 0⟩
    rw [hloop]

/-- C7 counterexample: with the degenerate zero-required-byte head packet,
a zero-symbol Schedule call still dequeues: the burst is nonempty and the
queue shrinks. -/
theorem Schedule_zero_symbols_cex :
    Schedule 0 1 HeaderType.GENERIC stEmpty (some cDeg) =
      some ⟨[⟨0, false⟩], some ⟨CidType.TRANSPORT, []⟩, 0⟩ ∧
    (⟨CidType.TRANSPORT, []⟩ : Conn) ≠ cDeg ∧
    ([⟨0, false⟩] : List BurstItem) ≠ [] := by
  refine ⟨?_, by decide, by decide⟩
  have hq1 : splitFirst HeaderType.GENERIC [pDeg] = some ([], pDeg, []) := by decide
  have hA : GetFirstPacketRequiredByte HeaderType.GENERIC [pDeg] ≤ GetNrBytes 0 1 := by
    decide
  have hstep := loopG_whole wsub16 1 HeaderType.GENERIC CidType.TRANSPORT 0 hq1 hA
  have hnil : splitFirst HeaderType.GENERIC (([] : List QPacket) ++ []) = none := by decide
  have hrest := loopG_nil wsub16 1 HeaderType.GENERIC CidType.TRANSPORT
    (wsub16 0 (GetNrSymbols (requiredBytes pDeg) 1)) hnil
  have hloop : scheduleLoopG wsub16 1 HeaderType.GENERIC CidType.TRANSPORT [pDeg] 0 =
      ([⟨0, false⟩], [], 0) := by
    rw [hstep, hrest]
    decide
  have hloop2 : scheduleLoop 1 HeaderType.GENERIC cDeg.ctype cDeg.queue (0 % 2 ^ 16) =
      ([⟨0, false⟩], [], 0) := hloop
  simp only [Schedule]
  rw [if_pos (by decide : HasPackets cDeg.queue = true), hloop2]
  rfl

/-- C8: a zero-required-byte head packet is dequeued as a whole packet
through the available-greater-equal-required branch regardless of the
remaining budget, so the loop makes forward progress. -/
theorem schedule_loop_degenerate_progress (bps avail : Nat) (pt : HeaderType)
    (ct : CidType) (q : List QPacket)
    (hhp : HasPacketsOfType pt q = true)
    (hR : GetFirstPacketRequiredByte pt q = 0) :
    ∃ rest, (scheduleLoop bps pt ct q avail).1 = ⟨0, false⟩ :: rest := by
  unfold HasPacketsOfType at hhp
  match hq : splitFirst pt q with
  | none =>
    rw [hq] at hhp
    simp at hhp
  | some (pre, p, post) =>
    have hreq : requiredBytes p = 0 := by
      rw [peek_required hq] at hR
      exact hR
    have hA : GetFirstPacketRequiredByte pt q ≤ GetNrBytes avail bps := by
      rw [hR]
      exact Nat.zero_le _
    have hw := loopG_whole wsub16 bps pt ct avail hq hA
    have h1 : (scheduleLoop bps pt ct q avail).1 =
        (⟨requiredBytes p, false⟩ : BurstItem) ::
          (scheduleLoopG wsub16 bps pt ct (pre ++ post)
            (wsub16 avail (GetNrSymbols (requiredBytes p) bps))).1 := by
      have hw2 : scheduleLoop bps pt ct q avail = _ := hw
      rw [hw2]
    rw [h1, hreq]
    exact ⟨_, rfl⟩

/-- C5: in the fragmentation branch, the header cost is the queue header
size plus 2 exactly when no fragmentation is in progress; a fragment
capped at the byte budget is appended exactly when the budget strictly
exceeds that cost, and otherwise the loop stops with the queue intact. -/
theorem schedule_loop_fragmentation_branch (bps avail : Nat) (pt : HeaderType)
    (q : List QPacket)
    (hhp : HasPacketsOfType pt q = true)
    (hlt : GetNrBytes avail bps < GetFirstPacketRequiredByte pt q) :
    (GetNrBytes avail bps ≤ GetFirstPacketHdrSize pt q +
        (if CheckForFragmentation pt q then 0 else 2) →
      scheduleLoop bps pt CidType.TRANSPORT q avail = ([], q, avail)) ∧
    (GetFirstPacketHdrSize pt q + (if CheckForFragmentation pt q then 0 else 2) <
        GetNrBytes avail bps →
      ∃ sz rest, (scheduleLoop bps pt CidType.TRANSPORT q avail).1 =
          ⟨sz, true⟩ :: rest ∧ sz ≤ GetNrBytes avail bps) := by
  have hA : ¬ GetFirstPacketRequiredByte pt q ≤ GetNrBytes avail bps := by omega
  unfold HasPacketsOfType at hhp
  match hq : splitFirst pt q with
  | none =>
    rw [hq] at hhp
    simp at hhp
  | some (pre, p, post) =>
    constructor
    · intro hH
      have hH2 : ¬ GetFirstPacketHdrSize pt q +
          (if CheckForFragmentation pt q then 0 else 2) < GetNrBytes avail bps := by omega
      exact loopG_fragStuck wsub16 bps pt avail hq hA hH2
    · intro hH
      have hfr := loopG_frag wsub16 bps pt avail hq hA hH
      have hple := hdr_plus_ite hq
      have h2 : p.hdrSize + 2 < GetNrBytes avail bps := by omega
      have hfr2 : scheduleLoop bps pt CidType.TRANSPORT q avail = _ := hfr
      refine ⟨p.hdrSize + 2 + min p.payload (GetNrBytes avail bps - (p.hdrSize + 2)),
        (scheduleLoopG wsub16 bps pt CidType.TRANSPORT
          (pre ++
            { payload := p.payload - min p.payload (GetNrBytes avail bps - (p.hdrSize + 2))
              hdrSize := p.hdrSize
              hdrType := p.hdrType
              fragmenting := true } :: post)
          (wsub16 avail (GetNrSymbols (p.hdrSize + 2 +
            min p.payload (GetNrBytes avail bps - (p.hdrSize + 2))) bps))).1,
        ?_, ?_⟩
      · rw [hfr2]
      · have := min_le_right p.payload (GetNrBytes avail bps - (p.hdrSize + 2))
        omega

theorem loop_no_frag_aux (bps : Nat) (pt : HeaderType) (ct : CidType)
    (hct : ct ≠ CidType.TRANSPORT) :
    ∀ n q avail, qMeasure q ≤ n →
      ∀ b ∈ (scheduleLoopG wsub16 bps pt ct q avail).1, b.frag = false := by
  intro n
  induction n with
  | zero =>
    intro q avail hm b hb
    have hq : splitFirst pt q = none := by
      cases q with
      | nil => rfl
      | cons x rest => rw [qMeasure_cons] at hm; omega
    rw [loopG_nil _ _ _ _ _ hq] at hb
    simp at hb
  | succ n ih =>
    intro q avail hm b hb
    match hq : splitFirst pt q with
    | none =>
      rw [loopG_nil _ _ _ _ _ hq] at hb
      simp at hb
    | some (pre, p, post) =>
      by_cases hA : GetFirstPacketRequiredByte pt q ≤ GetNrBytes avail bps
      · rw [loopG_whole wsub16 bps pt ct avail hq hA] at hb
        have hb2 : b ∈ (⟨requiredBytes p, false⟩ : BurstItem) ::
            (scheduleLoopG wsub16 bps pt ct (pre ++ post)
              (wsub16 avail (GetNrSymbols (requiredBytes p) bps))).1 := hb
        rcases List.mem_cons.mp hb2 with hbe | hmem
        · rw [hbe]
        · have hm2 : qMeasure (pre ++ post) ≤ n := by
            have := qMeasure_whole_lt hq
            omega
          exact ih (pre ++ post) (wsub16 avail (GetNrSymbols (requiredBytes p) bps)) hm2 b hmem
      · rw [loopG_stuck wsub16 bps pt ct avail hq hA hct] at hb
        simp at hb

/-- C6: on a non-TRANSPORT connection the loop never produces a fragment:
every burst entry is a whole packet, and when the byte budget does not
cover the whole head packet the loop stops at once with the queue
untouched. -/
theorem schedule_loop_nontransport_whole (bps avail : Nat) (pt : HeaderType)
    (ct : CidType) (q : List QPacket) (hct : ct ≠ CidType.TRANSPORT) :
    (∀ b ∈ (scheduleLoop bps pt ct q avail).1, b.frag = false) ∧
    (HasPacketsOfType pt q = true →
      GetNrBytes avail bps < GetFirstPacketRequiredByte pt q →
      scheduleLoop bps pt ct q avail = ([], q, avail)) := by
  constructor
  · exact loop_no_frag_aux bps pt ct hct (qMeasure q) q avail (Nat.le_refl _)
  · intro hhp hlt
    unfold HasPacketsOfType at hhp
    match hq : splitFirst pt q with
    | none =>
      rw [hq] at hhp
      simp at hhp
    | some (pre, p, post) =>
      have hA : ¬ GetFirstPacketRequiredByte pt q ≤ GetNrBytes avail bps := by omega
      exact loopG_stuck wsub16 bps pt ct avail hq hA hct

/-- Witness for C5 on a 106-byte packet with a 50-byte budget. -/
theorem schedule_loop_fragmentation_branch_witness :
    (GetNrBytes 50 8 ≤ GetFirstPacketHdrSize HeaderType.GENERIC
        [⟨100, 6, HeaderType.GENERIC, false⟩] +
        (if CheckForFragmentation HeaderType.GENERIC
          [⟨100, 6, HeaderType.GENERIC, false⟩] then 0 else 2) →
      scheduleLoop 8 HeaderType.GENERIC CidType.TRANSPORT
        [⟨100, 6, HeaderType.GENERIC, false⟩] 50 =
        ([], [⟨100, 6, HeaderType.GENERIC, false⟩], 50)) ∧
    (GetFirstPacketHdrSize HeaderType.GENERIC [⟨100, 6, HeaderType.GENERIC, false⟩] +
        (if CheckForFragmentation HeaderType.GENERIC
          [⟨100, 6, HeaderType.GENERIC, false⟩] then 0 else 2) <
        GetNrBytes 50 8 →
      ∃ sz rest, (scheduleLoop 8 HeaderType.GENERIC CidType.TRANSPORT
          [⟨100, 6, HeaderType.GENERIC, false⟩] 50).1 = ⟨sz, true⟩ :: rest ∧
        sz ≤ GetNrBytes 50 8) :=
  schedule_loop_fragmentation_branch 8 50 HeaderType.GENERIC
    [⟨100, 6, HeaderType.GENERIC, false⟩] (by decide) (by decide)

/-- Witness for C6 on a basic connection with a short budget. -/
theorem schedule_loop_nontransport_whole_witness :
    (∀ b ∈ (scheduleLoop 8 HeaderType.GENERIC CidType.BASIC
        [⟨44, 6, HeaderType.GENERIC, false⟩] 20).1, b.frag = false) ∧
    (HasPacketsOfType HeaderType.GENERIC [⟨44, 6, HeaderType.GENERIC, false⟩] = true →
      GetNrBytes 20 8 < GetFirstPacketRequiredByte HeaderType.GENERIC
        [⟨44, 6, HeaderType.GENERIC, false⟩] →
      scheduleLoop 8 HeaderType.GENERIC CidType.BASIC
        [⟨44, 6, HeaderType.GENERIC, false⟩] 20 =
        ([], [⟨44, 6, HeaderType.GENERIC, false⟩], 20)) :=
  schedule_loop_nontransport_whole 8 20 HeaderType.GENERIC CidType.BASIC
    [⟨44, 6, HeaderType.GENERIC, false⟩] (by decide)

/-- Witness for C7 (amended) on a basic connection with one real packet. -/
theorem Schedule_zero_symbols_witness :
    Schedule 0 8 HeaderType.GENERIC stEmpty
        (some ⟨CidType.BASIC, [⟨10, 6, HeaderType.GENERIC, false⟩]⟩) =
      some ⟨[], some ⟨CidType.BASIC, [⟨10, 6, HeaderType.GENERIC, false⟩]⟩, 0⟩ ∧
    (SelectConnection stEmpty =
        some ⟨CidType.BASIC, [⟨10, 6, HeaderType.GENERIC, false⟩]⟩ →
      Schedule 0 8 HeaderType.GENERIC stEmpty none =
        some ⟨[], some ⟨CidType.BASIC, [⟨10, 6, HeaderType.GENERIC, false⟩]⟩, 0⟩) :=
  Schedule_zero_symbols 8 HeaderType.GENERIC stEmpty
    ⟨CidType.BASIC, [⟨10, 6, HeaderType.GENERIC, false⟩]⟩ (by decide) (by decide)

/-- Witness for C8 on the degenerate packet. -/
theorem schedule_loop_degenerate_progress_witness :
    ∃ rest, (scheduleLoop 8 HeaderType.GENERIC CidType.TRANSPORT [pDeg] 7).1 =
      ⟨0, false⟩ :: rest :=
  schedule_loop_degenerate_progress 8 7 HeaderType.GENERIC CidType.TRANSPORT [pDeg]
    (by decide) (by decide)

/-- C1: any burst Schedule returns fits in the granted symbol count: the
total byte length of the burst, converted back through the rounding-up
symbol conversion, never exceeds the symbols available at entry. -/
theorem Schedule_burst_fits_grant (availableSymbols bps : Nat) (pt : HeaderType)
    (st : SSState) (connection : Option Conn)
    (h16 : availableSymbols < 2 ^ 16) (h0 : 0 < bps) (h19 : bps < 2 ^ 19) :
    GetNrSymbols (totalBytes (burstOf (Schedule availableSymbols bps pt st connection)))
        bps ≤ availableSymbols := by
  have hmod : availableSymbols % 2 ^ 16 = availableSymbols := Nat.mod_eq_of_lt h16
  have hzero : GetNrSymbols (totalBytes ([] : List BurstItem)) bps ≤ availableSymbols := by
    have he : GetNrSymbols (totalBytes ([] : List BurstItem)) bps =
        ceil8 bps 0 % 2 ^ 16 := rfl
    rw [he, ceil8_zero h0, Nat.zero_mod]
    exact Nat.zero_le _
  have hkey : ∀ (ct : CidType) (q : List QPacket),
      GetNrSymbols (totalBytes
        (scheduleLoop bps pt ct q (availableSymbols % 2 ^ 16)).1) bps ≤
        availableSymbols := by
    intro ct q
    obtain ⟨m1, m2, m3⟩ := loop_master pt ct h0 h19 (qMeasure q) q
      (availableSymbols % 2 ^ 16) (Nat.le_refl _) (by rw [hmod]; exact h16)
    have hle : ceil8 bps (totalBytes (scheduleLoopG wsub16 bps pt ct q
        (availableSymbols % 2 ^ 16)).1) ≤ availableSymbols := by omega
    have hform : GetNrSymbols (totalBytes
        (scheduleLoop bps pt ct q (availableSymbols % 2 ^ 16)).1) bps =
        ceil8 bps (totalBytes (scheduleLoopG wsub16 bps pt ct q
          (availableSymbols % 2 ^ 16)).1) % 2 ^ 16 := rfl
    rw [hform]
    exact le_trans (Nat.mod_le _ _) hle
  cases connection with
  | some c =>
    simp only [Schedule]
    by_cases hhp : HasPackets c.queue = true
    · rw [if_pos hhp]
      exact hkey c.ctype c.queue
    · rw [if_neg hhp]
      exact hzero
  | none =>
    cases hsel : SelectConnection st with
    | none =>
      simp only [Schedule, hsel]
      exact hzero
    | some c =>
      simp only [Schedule, hsel]
      exact hkey c.ctype c.queue

/-- Witness for C1 at the basic-traffic station. -/
theorem Schedule_burst_fits_grant_witness :
    GetNrSymbols (totalBytes (burstOf (Schedule 100 8 HeaderType.GENERIC stBasic none)))
        8 ≤ 100 :=
  Schedule_burst_fits_grant 100 8 HeaderType.GENERIC stBasic none
    (by decide) (by decide) (by decide)

/-- C2: each append subtracts the rounded-up symbol cost of the packet
from the 16-bit counter, and the modular subtraction of the source never
wraps: the loop coincides with the variant whose subtraction saturates at
zero. -/
theorem schedule_loop_saturating (bps avail : Nat) (pt : HeaderType) (ct : CidType)
    (q : List QPacket) (h16 : avail < 2 ^ 16) (h0 : 0 < bps) (h19 : bps < 2 ^ 19) :
    scheduleLoop bps pt ct q avail = scheduleLoopSat bps pt ct q avail :=
  (loop_master pt ct h0 h19 (qMeasure q) q avail (Nat.le_refl _) h16).2.2

/-- Witness for C2 on a TRANSPORT queue that forces a fragment. -/
theorem schedule_loop_saturating_witness :
    scheduleLoop 8 HeaderType.GENERIC CidType.TRANSPORT
        [⟨100, 6, HeaderType.GENERIC, false⟩] 50 =
      scheduleLoopSat 8 HeaderType.GENERIC CidType.TRANSPORT
        [⟨100, 6, HeaderType.GENERIC, false⟩] 50 :=
  schedule_loop_saturating 8 50 HeaderType.GENERIC CidType.TRANSPORT
    [⟨100, 6, HeaderType.GENERIC, false⟩] (by decide) (by decide) (by decide)
